import Mathlib

/-!
Verification of the jay compositor's input-routing and output subsystems.

Shallow embedding of the Rust sources:
  src/ifs/wl_seat/event_handling.rs  (seat input routing, focus, shortcuts)
  src/tree/output.rs                 (output node: find-tree, screencopy)
  src/ifs/jay_compositor.rs          (jay_compositor requests)
  src/config.rs                      (config proxy interface)

Machine integers are modelled as Nat/Int.  The `Fixed` 24.8 sub-pixel type
and the `Rect` type are not included in the source tree; they are modelled
from the specification where indicated.
-/

namespace Jay

/-- Modelled from the spec: the `Fixed` signed 24.8 sub-pixel coordinate type
(src/fixed.rs is not among the sources).  A value is a count of 1/256 units. -/
abbrev Fixed := Int

/-- Modelled from the spec: `Fixed::from_int`. -/
def Fixed.from_int (n : Int) : Fixed := n * 256

/-- Modelled from the spec: `Fixed::round_down` returns the integer part,
rounding toward negative infinity (arithmetic shift right by 8). -/
def Fixed.round_down (f : Fixed) : Int := f / 256

/-- Modelled from the spec: the fractional part of a `Fixed`, in 1/256 units. -/
def Fixed.fract (f : Fixed) : Int := f % 256

/-- Modelled from the spec: `Fixed::apply_fract` replaces the integer part by
`i` while preserving the fractional part. -/
def Fixed.apply_fract (f : Fixed) (i : Int) : Fixed := i * 256 + f % 256

/-- Modelled from the spec: an axis-aligned rectangle given by its corners,
half-open on the far edges (src/rect.rs is not among the sources). -/
structure Rect where
  x1 : Int
  y1 : Int
  x2 : Int
  y2 : Int
deriving DecidableEq, Repr

/-- Modelled from the spec: `Rect::contains` with the far edges excluded. -/
def Rect.contains (r : Rect) (x y : Int) : Bool :=
  decide (r.x1 ≤ x) && decide (x < r.x2) && decide (r.y1 ≤ y) && decide (y < r.y2)

/-! ## Motion events (`WlSeatGlobal::motion_event`, event_handling.rs 183-215) -/

/-- The seat state read and written by `motion_event`: the sub-pixel pointer
position and the current output's rectangle. -/
structure MotionSeat where
  pos : Fixed × Fixed
  output : Rect
deriving DecidableEq, Repr

/-- One arm of the clamping in `motion_event`:
`if v < lo { lo } else if v >= hi { hi - 1 } else { v }`. -/
def clamp_coord (v lo hi : Int) : Int :=
  if v < lo then lo else if v ≥ hi then hi - 1 else v

/-- `WlSeatGlobal::motion_event`: add the deltas to the sub-pixel position;
if the rounded point left the current output, look for another output that
contains it and switch to it; otherwise clamp each integer coordinate into
the current output (far edges excluded) preserving the fraction.
`outputs` is the value list of `state.outputs`. -/
def motion_event (outputs : List Rect) (s : MotionSeat) (dx dy : Fixed) : MotionSeat :=
  let x := s.pos.1 + dx
  let y := s.pos.2 + dy
  let pos := s.output
  let x_int := Fixed.round_down x
  let y_int := Fixed.round_down y
  if pos.contains x_int y_int then
    { pos := (x, y), output := s.output }
  else
    match outputs.find? (fun o => o.contains x_int y_int) with
    | some o => { pos := (x, y), output := o }
    | none =>
      let xc := clamp_coord x_int pos.x1 pos.x2
      let yc := clamp_coord y_int pos.y1 pos.y2
      { pos := (Fixed.apply_fract x xc, Fixed.apply_fract y yc), output := s.output }

/-! ## Shortcut table (`add_shortcut`/`remove_shortcut`, event_handling.rs 431-437) -/

/-- The seat's shortcut table: a map from (modifier bitmask, keysym) to the
stored modifier value, as maintained by `WlSeatGlobal::shortcuts`. -/
abbrev ShortcutTable := Nat × Nat → Option Nat

/-- `WlSeatGlobal::add_shortcut`: `self.shortcuts.set((mods.0, keysym.0), mods)`. -/
def add_shortcut (mods keysym : Nat) (t : ShortcutTable) : ShortcutTable :=
  fun p => if p = (mods, keysym) then some mods else t p

/-- `WlSeatGlobal::remove_shortcut`: `self.shortcuts.remove(&(mods.0, keysym.0))`. -/
def remove_shortcut (mods keysym : Nat) (t : ShortcutTable) : ShortcutTable :=
  fun p => if p = (mods, keysym) then none else t p

/-- A concrete shortcut table that already holds the binding (0, 5). -/
def c9_table : ShortcutTable := fun p => if p = (0, 5) then some 0 else none

/-! ## Key events (`WlSeatGlobal::key_event`, event_handling.rs 217-264) -/

/-- Backend key state (`backend::KeyState`). -/
inductive KeyState where
  | released
  | pressed
deriving DecidableEq, Repr

/-- A modifier tuple as returned by the xkb keyboard-state collaborator
(`xkbcommon::ModifierState`). -/
structure ModifierState where
  mods_depressed : Nat
  mods_latched : Nat
  mods_locked : Nat
  mods_effective : Nat
  group : Nat
deriving DecidableEq, Repr

/-- The answers of the opaque xkb keyboard-state collaborator for the one key
event under consideration: `kb_state.mods()` before the update,
`kb_state.unmodified_keysyms(key)`, and the optional changed modifier state
returned by `kb_state.update(key, dir)`. -/
structure XkbAnswers where
  old_mods : ModifierState
  unmodified_keysyms : List Nat
  new_mods : Option ModifierState
deriving Repr

/-- The seat state read by `key_event`: the pressed-key set, the shortcut
table and whether `state.config` holds a configuration proxy. -/
structure KeySeatState where
  pressed_keys : List Nat
  shortcuts : ShortcutTable
  config_present : Bool

/-- `wl_keyboard::RELEASED`. -/
def wl_keyboard_RELEASED : Nat := 0

/-- `wl_keyboard::PRESSED`. -/
def wl_keyboard_PRESSED : Nat := 1

/-- The externally observable actions of `key_event`: a `key` delivered to the
keyboard-focus node, an `invoke_shortcut` sent to the configuration proxy, or
a `modifiers` update delivered to the focus node. -/
inductive KeyEv where
  | node_key (key state : Nat)
  | invoke_shortcut (mods sym : Nat)
  | node_mods (m : ModifierState)
deriving DecidableEq, Repr

/-- `WlSeatGlobal::key_event`: update the pressed-key set, returning early on
repeat events that do not change membership; on press, look every unmodified
keysym up in the shortcut table under the pre-update effective modifiers; if
none matched deliver `key` to the focus node, else if a configuration proxy is
attached invoke every matched shortcut; finally deliver `modifiers` if the xkb
update changed the modifier state. -/
def key_event (s : KeySeatState) (xkb : XkbAnswers) (key : Nat) (ks : KeyState) :
    KeySeatState × List KeyEv :=
  let step1 : Option (KeySeatState × Nat) :=
    match ks with
    | .released =>
      if key ∈ s.pressed_keys then
        some ({ s with pressed_keys := s.pressed_keys.erase key }, wl_keyboard_RELEASED)
      else
        none
    | .pressed =>
      if key ∈ s.pressed_keys then
        none
      else
        some ({ s with pressed_keys := key :: s.pressed_keys }, wl_keyboard_PRESSED)
  match step1 with
  | none => (s, [])
  | some (s1, st) =>
    let matched :=
      if st = wl_keyboard_PRESSED then
        xkb.unmodified_keysyms.filterMap (fun sym =>
          match s.shortcuts (xkb.old_mods.mods_effective, sym) with
          | some mods => some (mods, sym)
          | none => none)
      else []
    let evs1 :=
      if matched.isEmpty then [KeyEv.node_key key st]
      else if s.config_present then
        matched.map (fun ms => KeyEv.invoke_shortcut ms.1 ms.2)
      else []
    let evs2 :=
      match xkb.new_mods with
      | some m => [KeyEv.node_mods m]
      | none => []
    (s1, evs1 ++ evs2)

/-- Count of `invoke_shortcut` actions in a key-event trace. -/
def countInvoke (l : List KeyEv) : Nat :=
  l.countP fun e => match e with | .invoke_shortcut _ _ => true | _ => false

/-- Count of `key` deliveries in a key-event trace. -/
def countKey (l : List KeyEv) : Nat :=
  l.countP fun e => match e with | .node_key _ _ => true | _ => false

/-- A shortcut table binding both (0,4) and (0,5). -/
def c1_table : ShortcutTable :=
  fun p => if p = (0, 4) ∨ p = (0, 5) then some 0 else none

/-! ## Node destruction (`NodeSeatState::destroy_node2`, event_handling.rs 112-138) -/

/-- Per-seat data consulted by `destroy_node2`: each seat's pointer stack
(`seat.pointer_stack`, top of stack first) and the most recently focused
toplevel of its focus history (`seat.toplevel_focus_history.last()`). -/
structure SeatEnv where
  pointer_stack : Nat → List Nat
  focus_history_last : Nat → Option Nat

/-- The destroyed node's `NodeSeatState`: the seats holding a pointer focus,
keyboard focus, pointer grab, or dnd target on it. -/
structure NodeSeatStateM where
  pointer_foci : List Nat
  kb_foci : List Nat
  grabs : List Nat
  dnd_targets : List Nat

/-- The externally observable actions of `destroy_node2`. -/
inductive DestroyEv where
  | revert_to_default (seat : Nat)
  | dnd_target_removed (seat : Nat)
  | leave (seat node : Nat)
  | tree_changed (seat : Nat)
  | ungrab_kb (seat : Nat)
  | kb_node_root (seat : Nat)
  | focus_node (seat tl : Nat)
deriving DecidableEq, Repr

/-- The inner `while let Some(last) = ps.pop()` loop of `destroy_node2`: pop
until the destroyed node is popped, returning the remaining stack and the list
of nodes that received a `leave`, in pop order. -/
def pop_stack (node_id : Nat) : List Nat → List Nat × List Nat
  | [] => ([], [])
  | n :: rest =>
    if n = node_id then (rest, [])
    else
      let p := pop_stack node_id rest
      (p.1, n :: p.2)

/-- `NodeSeatState::release_kb_focus2`: for every seat holding keyboard focus,
ungrab the keyboard, point the keyboard node at the root, and when
`focus_last` is set refocus the last toplevel of the focus history. -/
def release_kb_focus2 (env : SeatEnv) (kb_foci : List Nat) (focus_last : Bool) :
    List DestroyEv :=
  kb_foci.bind fun seat =>
    [DestroyEv.ungrab_kb seat, DestroyEv.kb_node_root seat] ++
    (if focus_last then
      match env.focus_history_last seat with
      | some tl => [DestroyEv.focus_node seat tl]
      | none => []
     else [])

/-- `NodeSeatState::destroy_node2`: drain the grabs, then the dnd targets,
then for every pointer-focus seat pop its pointer stack and signal
tree-changed, then release the keyboard foci.  Returns the action trace and
the seats' pointer stacks after the call. -/
def destroy_node2 (env : SeatEnv) (st : NodeSeatStateM) (node_id : Nat)
    (focus_last : Bool) : List DestroyEv × (Nat → List Nat) :=
  let trace :=
    st.grabs.map DestroyEv.revert_to_default ++
    st.dnd_targets.map DestroyEv.dnd_target_removed ++
    (st.pointer_foci.bind fun seat =>
      ((pop_stack node_id (env.pointer_stack seat)).2.map (DestroyEv.leave seat)) ++
      [DestroyEv.tree_changed seat]) ++
    release_kb_focus2 env st.kb_foci focus_last
  let stacks_after := fun seat =>
    if seat ∈ st.pointer_foci then (pop_stack node_id (env.pointer_stack seat)).1
    else env.pointer_stack seat
  (trace, stacks_after)

/-- `NodeSeatState::destroy_node`: `destroy_node2` with `focus_last = true`. -/
def destroy_node (env : SeatEnv) (st : NodeSeatStateM) (node_id : Nat) :
    List DestroyEv × (Nat → List Nat) :=
  destroy_node2 env st node_id true

/-! ## Keyboard focus change (event_handling.rs 548-581, kb_owner) -/

/-- A client-facing surface: its protocol id and owning client. -/
structure Surface where
  id : Nat
  client : Nat
deriving DecidableEq, Repr

/-- The state threaded through a keyboard focus change: the per-client serial
counters, the seat's pressed-key set and its current modifier tuple. -/
structure KbFocusState where
  serials : Nat → Nat
  pressed_keys : List Nat
  mods : ModifierState

/-- Keyboard protocol events sent during a focus change. -/
inductive KbEv where
  | leave (serial surface : Nat)
  | enter (serial surface : Nat) (keys : List Nat)
  | modifiers (serial mods_depressed mods_latched mods_locked group : Nat)
deriving DecidableEq, Repr

/-- `Client::next_serial`: bump the client's serial counter and return the
fresh value. -/
def next_serial (st : KbFocusState) (c : Nat) : Nat × KbFocusState :=
  (st.serials c + 1,
   { st with serials := fun x => if x = c then st.serials c + 1 else st.serials x })

/-- `WlSeatGlobal::unfocus_surface`: send `leave` with a fresh serial of the
surface's client. -/
def unfocus_surface (st : KbFocusState) (surface : Surface) :
    KbFocusState × List KbEv :=
  let p := next_serial st surface.client
  (p.2, [KbEv.leave p.1 surface.id])

/-- `WlSeatGlobal::focus_surface`: send `enter` carrying the currently pressed
keys with a fresh serial of the surface's client, then `modifiers` carrying
the full modifier tuple with another fresh serial. -/
def focus_surface (st : KbFocusState) (surface : Surface) :
    KbFocusState × List KbEv :=
  let p1 := next_serial st surface.client
  let e1 := KbEv.enter p1.1 surface.id st.pressed_keys
  let p2 := next_serial p1.2 surface.client
  let e2 := KbEv.modifiers p2.1 st.mods.mods_depressed st.mods.mods_latched
    st.mods.mods_locked st.mods.group
  (p2.2, [e1, e2])

/-- Modelled from the spec: `kb_owner.set_kb_node` (src/ifs/wl_seat/kb_owner.rs
is not among the sources) performs the focus-change sequence: `leave` on the
old keyboard object, then `enter` and `modifiers` on the new one. -/
def set_kb_node (st : KbFocusState) (old new_node : Surface) :
    KbFocusState × List KbEv :=
  let q1 := unfocus_surface st old
  let q2 := focus_surface q1.1 new_node
  (q2.1, q1.2 ++ q2.2)

/-- The keyboard phase of `release_kb_focus2` for one seat whose focus node
`old` is being destroyed: when the toplevel focus history is non-empty,
refocus its last entry's focus surface; otherwise only the keyboard node is
reset and no event is sent. -/
def release_one_kb_focus (st : KbFocusState) (old : Surface)
    (hist_last : Option Surface) : KbFocusState × List KbEv :=
  match hist_last with
  | some tl => set_kb_node st old tl
  | none => (st, [])

/-! ## Scroll delivery (`WlSeatGlobal::scroll_surface`, event_handling.rs 481-507) -/

/-- The since-version constants and the WHEEL_TILT source value of the
wl_pointer protocol, kept abstract (src/ifs/wl_seat/wl_pointer.rs is not
among the sources). -/
structure SinceVersions where
  axis_source_since : Nat
  wheel_tilt_since : Nat
  axis_discrete_since : Nat
  axis_stop_since : Nat
  frame_since : Nat
  wheel_tilt : Nat
deriving DecidableEq, Repr

/-- Modelled from the spec: the `PendingScroll` snapshot
{source, discrete[2], axis[2], stop[2]} accumulated until `Frame`
(src/ifs/wl_seat/wl_pointer.rs is not among the sources). -/
structure PendingScroll where
  source : Option Nat
  discrete : Fin 2 → Option Int
  axis : Fin 2 → Option Int
  stop : Fin 2 → Bool

/-- Pointer protocol events emitted by `scroll_surface`; each event names the
receiving pointer by its seat binding version. -/
inductive ScrollEv where
  | axis_source (ptr src : Nat)
  | axis_discrete (ptr axis : Nat) (delta : Int)
  | axis_ev (ptr axis : Nat) (delta : Int)
  | axis_stop (ptr axis : Nat)
  | frame (ptr : Nat)
deriving DecidableEq, Repr

/-- `WlSeatGlobal::for_each_pointer` composed with `for_each_seat`: the bound
pointers whose seat binding version is at least `ver`.  A pointer is
represented by its seat binding version. -/
def for_each_pointer (pointers : List Nat) (ver : Nat) : List Nat :=
  pointers.filter (fun v => decide (ver ≤ v))

/-- `WlSeatGlobal::surface_pointer_event`: send one event per eligible
pointer. -/
def surface_pointer_event (pointers : List Nat) (ver : Nat) (f : Nat → ScrollEv) :
    List ScrollEv :=
  (for_each_pointer pointers ver).map f

/-- `WlSeatGlobal::scroll_surface`: send `axis_source` (gated on the
wheel-tilt or axis-source since-version), then — in the source's `for i in
0..1` loop, which iterates only i = 0 — `axis_discrete`, `axis` and
`axis_stop` for the pending entries of that axis, then `frame` gated on the
frame since-version. -/
def scroll_surface (V : SinceVersions) (pointers : List Nat)
    (event : PendingScroll) : List ScrollEv :=
  (match event.source with
   | some src =>
     surface_pointer_event pointers
       (if V.wheel_tilt ≤ src then V.wheel_tilt_since else V.axis_source_since)
       (fun v => ScrollEv.axis_source v src)
   | none => []) ++
  (([0] : List (Fin 2)).bind fun i =>
    (match event.discrete i with
     | some delta =>
       surface_pointer_event pointers V.axis_discrete_since
         (fun v => ScrollEv.axis_discrete v i.val delta)
     | none => []) ++
    (match event.axis i with
     | some delta =>
       surface_pointer_event pointers 0 (fun v => ScrollEv.axis_ev v i.val delta)
     | none => []) ++
    (if event.stop i then
       surface_pointer_event pointers V.axis_stop_since
         (fun v => ScrollEv.axis_stop v i.val)
     else [])) ++
  surface_pointer_event pointers V.frame_since ScrollEv.frame

/-! ## Output find-tree (`OutputNode::node_find_tree_at`, output.rs 1022-1116) -/

/-- The find-tree usecases (`tree::FindTreeUsecase`). -/
inductive FindTreeUsecase where
  | usual
  | select_toplevel
  | select_workspace
deriving DecidableEq, Repr

/-- The find-tree outcome (`tree::FindTreeResult`). -/
inductive FindTreeResult where
  | accepts_input
  | other
deriving DecidableEq, Repr

/-- An entry pushed on the traversal vector (`tree::FoundNode`). -/
structure FoundNode where
  node : Nat
  x : Int
  y : Int
deriving DecidableEq, Repr

/-- The sub-traversals delegated by `node_find_tree_at`, as oracles giving the
net nodes pushed and the result of each collaborator search at the queried
local coordinates. -/
structure OutputEnv where
  lock_subtree : Int → Int → List FoundNode × FindTreeResult
  stacked_above_layers : Int → Int → List FoundNode × FindTreeResult
  layers_overlay_top : Int → Int → List FoundNode × FindTreeResult
  stacked : Int → Int → List FoundNode × FindTreeResult
  fullscreen_subtree : Int → Int → List FoundNode × FindTreeResult
  ws_subtree : Int → Int → List FoundNode × FindTreeResult
  layers_bottom_bg : Int → Int → List FoundNode × FindTreeResult

/-- The output-node state read by `node_find_tree_at`: session lock flag and
lock surface, bar height (`title_height + 1`), current workspace and its
fullscreen node, and the non-exclusive rectangle. -/
structure OutputState where
  locked : Bool
  lock_surface : Option Nat
  bar_height : Int
  workspace : Option Nat
  fullscreen : Option Nat
  non_exclusive_rect : Rect
deriving Repr

/-- `Rect::translate`: global to local coordinates. -/
def Rect.translate (r : Rect) (x y : Int) : Int × Int := (x - r.x1, y - r.y1)

/-- `OutputNode::node_find_tree_at`: if the session is locked, only the lock
surface (when set, and the usecase is not SelectToplevel) is searched;
otherwise the workspace-selection shortcut, the stacked-above-layers nodes,
the overlay/top layers, the stacked nodes, the fullscreen node or the
workspace subtree within the non-exclusive rectangle, and finally the
bottom/background layers are searched in that order. -/
def node_find_tree_at (env : OutputEnv) (o : OutputState) (x y : Int)
    (usecase : FindTreeUsecase) : List FoundNode × FindTreeResult :=
  if o.locked then
    if usecase ≠ FindTreeUsecase.select_toplevel then
      match o.lock_surface with
      | some ls =>
        let sub := env.lock_subtree x y
        ({ node := ls, x := x, y := y } :: sub.1, sub.2)
      | none => ([], FindTreeResult.accepts_input)
    else ([], FindTreeResult.accepts_input)
  else
    -- the `mut y` adjusted by the SelectWorkspace shortcut
    let yw :=
      if usecase = FindTreeUsecase.select_workspace ∧ y ≥ o.bar_height then
        y - o.bar_height
      else y
    if usecase = FindTreeUsecase.select_workspace ∧ y ≥ o.bar_height ∧
        o.workspace.isSome then
      match o.workspace with
      | some ws => ([{ node := ws, x := x, y := yw }], FindTreeResult.accepts_input)
      | none => ([], FindTreeResult.other)
    else
      let r1 := env.stacked_above_layers x yw
      if r1.2 = FindTreeResult.accepts_input then r1
      else
        let r2 := env.layers_overlay_top x yw
        if r2.2 = FindTreeResult.accepts_input then r2
        else
          let r3 := env.stacked x yw
          if r3.2 = FindTreeResult.accepts_input then r3
          else
            match o.fullscreen with
            | some fs =>
              let sub := env.fullscreen_subtree x yw
              ({ node := fs, x := x, y := yw } :: sub.1, sub.2)
            | none =>
              let p := o.non_exclusive_rect.translate x yw
              let in_rect := o.non_exclusive_rect.contains x yw
              let try_ws := in_rect ∧ p.2 ≥ o.bar_height ∧ o.workspace.isSome
              let ws_hit :=
                if try_ws then
                  match o.workspace with
                  | some ws =>
                    let sub := env.ws_subtree p.1 (p.2 - o.bar_height)
                    if sub.2 = FindTreeResult.accepts_input then
                      some ({ node := ws, x := p.1, y := p.2 - o.bar_height } :: sub.1)
                    else none
                  | none => none
                else none
              match ws_hit with
              | some found => (found, FindTreeResult.accepts_input)
              | none =>
                -- search_layers is false only when the point is inside the
                -- non-exclusive rectangle above the bar, or the workspace
                -- search succeeded (excluded here by ws_hit = none)
                if in_rect ∧ p.2 < o.bar_height then
                  ([], FindTreeResult.accepts_input)
                else
                  ((env.layers_bottom_bg x yw).1, FindTreeResult.accepts_input)

/-! ## Screencopy drain (`OutputNode::perform_wlr_screencopies`, output.rs 227-318) -/

/-- A client buffer's storage: shared memory or a dmabuf with or without an
attached framebuffer. -/
inductive StorageKind where
  | shm
  | dmabuf (has_fb : Bool)
deriving DecidableEq, Repr

/-- The client buffer attached to a capture (`WlBuffer`). -/
structure WlBuffer where
  destroyed : Bool
  storage : Option StorageKind
deriving DecidableEq, Repr

/-- One pending screencopy capture: its attached buffer (if any), the
with-damage flag, and the outcome of the renderer copy operation for it (the
renderer is an external collaborator). -/
structure Capture where
  buffer : Option WlBuffer
  with_damage : Bool
  copy_ok : Bool
deriving DecidableEq, Repr

/-- The events sent on one capture object. -/
inductive CaptureEv where
  | failed
  | damage
  | ready (sec nsec : Int)
deriving DecidableEq, Repr

/-- The body of the drain loop of `perform_wlr_screencopies` for a single
capture: `failed` when there is no attached buffer, the buffer is destroyed,
a dmabuf buffer has no framebuffer, or the copy errs; otherwise optional
`damage` followed by `ready(sec, nsec)`. -/
def handle_capture (now : Int × Int) (c : Capture) : List CaptureEv :=
  match c.buffer with
  | none => [CaptureEv.failed]
  | some b =>
    if b.destroyed then [CaptureEv.failed]
    else
      let copy_result : Option (List CaptureEv) :=
        match b.storage with
        | some StorageKind.shm =>
          if c.copy_ok then none else some [CaptureEv.failed]
        | some (StorageKind.dmabuf has_fb) =>
          if has_fb then
            if c.copy_ok then none else some [CaptureEv.failed]
          else some [CaptureEv.failed]
        | none => none
      match copy_result with
      | some evs => evs
      | none =>
        (if c.with_damage then [CaptureEv.damage] else []) ++
        [CaptureEv.ready now.1 now.2]

/-- `OutputNode::perform_wlr_screencopies`: drain the queue, handling each
capture in turn. -/
def perform_wlr_screencopies (now : Int × Int) : List Capture → List (List CaptureEv)
  | [] => []
  | c :: rest => handle_capture now c :: perform_wlr_screencopies now rest

/-- The failure conditions of the specification for one capture: no attached
buffer, destroyed buffer, dmabuf without framebuffer, or copy error. -/
def capture_fails (c : Capture) : Bool :=
  match c.buffer with
  | none => true
  | some b =>
    b.destroyed ||
    (match b.storage with
     | some StorageKind.shm => !c.copy_ok
     | some (StorageKind.dmabuf has_fb) => !has_fb || !c.copy_ok
     | none => false)

/-! ## jay_compositor unlock (`JayCompositor::unlock`, jay_compositor.rs 178-195) -/

/-- The session-lock state: `state.lock.locked` and whether `state.lock.lock`
holds an `ExtSessionLockV1`. -/
structure LockState where
  locked : Bool
  lock_present : Bool
deriving DecidableEq, Repr

/-- The slice of global and per-client state touched by the `unlock` and
`enable_symmetric_delete` request handlers: the session lock, each output's
lock surface (`true` = present), the requesting client's `symmetric_delete`
flag, and the `tree_changed`/`damage` side effects. -/
structure JayState where
  lock : LockState
  lock_surfaces : List Bool
  symmetric_delete : Bool
  tree_changed_flag : Bool
  damaged : Bool
deriving DecidableEq, Repr

/-- `JayCompositor::unlock`: replace `locked` by false; if it was set, finish
the lock, destroy every output's lock surface, signal tree-changed and damage;
finally set the client's `symmetric_delete` flag unconditionally. -/
def unlock (s : JayState) : JayState :=
  let s1 :=
    if s.lock.locked then
      { s with
        lock := { locked := false, lock_present := false }
        lock_surfaces := s.lock_surfaces.map (fun _ => false)
        tree_changed_flag := true
        damaged := true }
    else
      { s with lock := { s.lock with locked := false } }
  { s1 with symmetric_delete := true }

/-- `JayCompositor::enable_symmetric_delete`: set the client's flag. -/
def enable_symmetric_delete (s : JayState) : JayState :=
  { s with symmetric_delete := true }

/-! ## Theorems -/

/-- Helper: `apply_fract` preserves the fractional part. -/
theorem Fixed.fract_apply_fract (f : Fixed) (i : Int) :
    Fixed.fract (Fixed.apply_fract f i) = Fixed.fract f := by
  unfold Fixed.fract Fixed.apply_fract
  omega

/-- Helper: `apply_fract` sets the integer part to `i`. -/
theorem Fixed.round_down_apply_fract (f : Fixed) (i : Int) :
    Fixed.round_down (Fixed.apply_fract f i) = i := by
  unfold Fixed.round_down Fixed.apply_fract
  omega

/-- Helper: the clamp stays inside `[lo, hi-1]` when the interval is nonempty. -/
theorem clamp_coord_bounds (v lo hi : Int) (h : lo < hi) :
    lo ≤ clamp_coord v lo hi ∧ clamp_coord v lo hi ≤ hi - 1 := by
  unfold clamp_coord
  split
  · omega
  · split <;> omega

/-- C3: for every Motion(dx, dy) event the deltas are added to the sub-pixel
position; if the rounded point stays inside the current output the position is
taken as-is; if some other output contains it, the seat switches output and the
position is not clamped; otherwise each coordinate is clamped into the current
output with the far edges excluded (round_down of the result is between x1 and
x2-1, never x2) and the fractional part is preserved. -/
theorem motion_event_cases (outputs : List Rect) (s : MotionSeat) (dx dy : Fixed) :
    (let x := s.pos.1 + dx
     let y := s.pos.2 + dy
     let xi := Fixed.round_down x
     let yi := Fixed.round_down y
     let r := motion_event outputs s dx dy
     (s.output.contains xi yi = true →
        r = { pos := (x, y), output := s.output }) ∧
     (s.output.contains xi yi = false → (∃ o ∈ outputs, o.contains xi yi = true) →
        r.pos = (x, y) ∧ r.output ∈ outputs ∧ r.output.contains xi yi = true) ∧
     (s.output.contains xi yi = false → (∀ o ∈ outputs, o.contains xi yi = false) →
        r.output = s.output ∧
        Fixed.fract r.pos.1 = Fixed.fract x ∧ Fixed.fract r.pos.2 = Fixed.fract y ∧
        (s.output.x1 < s.output.x2 →
          s.output.x1 ≤ Fixed.round_down r.pos.1 ∧
          Fixed.round_down r.pos.1 ≤ s.output.x2 - 1) ∧
        (s.output.y1 < s.output.y2 →
          s.output.y1 ≤ Fixed.round_down r.pos.2 ∧
          Fixed.round_down r.pos.2 ≤ s.output.y2 - 1))) := by
  intro x y xi yi r
  refine ⟨?_, ?_, ?_⟩
  · intro h
    simp only [r, motion_event, h, if_true]
  · intro h hex
    obtain ⟨o, ho, hco⟩ := hex
    have hfind : (outputs.find? (fun o => o.contains xi yi)).isSome := by
      rw [List.find?_isSome]
      exact ⟨o, ho, hco⟩
    obtain ⟨o2, ho2⟩ := Option.isSome_iff_exists.mp hfind
    have hmem := List.mem_of_find?_eq_some ho2
    have hprop := List.find?_some ho2
    have hr : r = { pos := (x, y), output := o2 } := by
      simp only [r, motion_event, h, Bool.false_eq_true, if_false, ho2]
    rw [hr]
    exact ⟨rfl, hmem, by simpa using hprop⟩
  · intro h hall
    have hfind : outputs.find? (fun o => o.contains xi yi) = none := by
      rw [List.find?_eq_none]
      intro o ho
      simp [hall o ho]
    have hr : r = { pos := (Fixed.apply_fract x (clamp_coord xi s.output.x1 s.output.x2),
                            Fixed.apply_fract y (clamp_coord yi s.output.y1 s.output.y2)),
                    output := s.output } := by
      simp only [r, motion_event, h, Bool.false_eq_true, if_false, hfind]
    rw [hr]
    refine ⟨rfl, Fixed.fract_apply_fract x _, Fixed.fract_apply_fract y _, ?_, ?_⟩
    · intro hx12
      rw [Fixed.round_down_apply_fract]
      exact clamp_coord_bounds xi s.output.x1 s.output.x2 hx12
    · intro hy12
      rw [Fixed.round_down_apply_fract]
      exact clamp_coord_bounds yi s.output.y1 s.output.y2 hy12

/-- Witness for C3: at output [0,256)×[0,256) with position (100·256, 100·256)
and delta (+300·256, 0), no other output exists, so x is clamped to 255 and the
seat stays on the same output. -/
theorem motion_event_cases_witness :
    (let s : MotionSeat := { pos := (100 * 256, 100 * 256),
                             output := { x1 := 0, y1 := 0, x2 := 256, y2 := 256 } }
     let r := motion_event [] s (300 * 256) 0
     r.output = s.output ∧ Fixed.round_down r.pos.1 = 255) := by
  intro s r
  have h := motion_event_cases [] s (300 * 256) 0
  refine ⟨h.2.2 (by decide) (by simp) |>.1, by decide⟩

/-- C9 counterexample: when the pair (0,5) is already bound in the table,
`add_shortcut 0 5` followed by `remove_shortcut 0 5` deletes the pre-existing
binding instead of restoring the prior state. -/
theorem add_remove_shortcut_not_inverse :
    remove_shortcut 0 5 (add_shortcut 0 5 c9_table) ≠ c9_table := by
  intro h
  have h5 := congrFun h (0, 5)
  simp [remove_shortcut, add_shortcut, c9_table] at h5

/-- C9 (amended): if (m,k) is not bound in the table, `add_shortcut m k`
followed by `remove_shortcut m k` restores the table exactly; in general the
composition removes the binding at (m,k). -/
theorem add_remove_shortcut_of_not_bound (m k : Nat) (t : ShortcutTable)
    (h : t (m, k) = none) :
    remove_shortcut m k (add_shortcut m k t) = t := by
  funext p
  by_cases hp : p = (m, k)
  · simp [remove_shortcut, add_shortcut, hp, h.symm]
  · simp [remove_shortcut, add_shortcut, hp]

/-- Witness for C9 (amended): the empty table, m = 0, k = 5. -/
theorem add_remove_shortcut_of_not_bound_witness :
    remove_shortcut 0 5 (add_shortcut 0 5 (fun _ => none)) = (fun _ => none) :=
  add_remove_shortcut_of_not_bound 0 5 (fun _ => none) rfl

/-- Helper: the length of a `filterMap` equals the length of the `filter` by
definedness of the partial function. -/
theorem length_filterMap_eq_length_filter {α β : Type} (f : α → Option β) (p : α → Bool)
    (h : ∀ a, (f a).isSome = p a) (l : List α) :
    (l.filterMap f).length = (l.filter p).length := by
  induction l with
  | nil => rfl
  | cons a l ih =>
    rw [List.filterMap_cons, List.filter_cons]
    cases hfa : f a
    · have hpa : p a = false := by rw [← h a, hfa]; rfl
      simp [hpa, ih]
    · have hpa : p a = true := by rw [← h a, hfa]; rfl
      simp [hpa, ih]

/-- Helper: lists of equal length are empty together. -/
theorem isEmpty_eq_of_length_eq {α β : Type} {l1 : List α} {l2 : List β}
    (h : l1.length = l2.length) : l1.isEmpty = l2.isEmpty := by
  cases l1 <;> cases l2 <;> simp_all

/-- Helper: every element of a mapped invoke list counts as an invocation. -/
theorem countInvoke_map_invoke (l : List (Nat × Nat)) :
    countInvoke (l.map (fun ms => KeyEv.invoke_shortcut ms.1 ms.2)) = l.length := by
  induction l with
  | nil => rfl
  | cons a l ih =>
    simp only [List.map_cons, countInvoke, List.countP_cons] at ih ⊢
    simp [ih]

/-- Helper: no element of a mapped invoke list counts as a key delivery. -/
theorem countKey_map_invoke (l : List (Nat × Nat)) :
    countKey (l.map (fun ms => KeyEv.invoke_shortcut ms.1 ms.2)) = 0 := by
  induction l with
  | nil => rfl
  | cons a l ih =>
    simp only [List.map_cons, countKey, List.countP_cons] at ih ⊢
    simp [ih]

/-- Helper: counts distribute over list append. -/
theorem countInvoke_append (a b : List KeyEv) :
    countInvoke (a ++ b) = countInvoke a + countInvoke b :=
  List.countP_append _ _ _

/-- Helper: counts distribute over list append. -/
theorem countKey_append (a b : List KeyEv) :
    countKey (a ++ b) = countKey a + countKey b :=
  List.countP_append _ _ _

/-- C1 counterexample: a key press whose key has two unmodified keysyms, both
bound in the shortcut table, produces two `invoke_shortcut` calls, not exactly
one. -/
theorem key_event_not_exactly_one_invocation :
    countInvoke (key_event
        { pressed_keys := [], shortcuts := c1_table, config_present := true }
        { old_mods := ⟨0, 0, 0, 0, 0⟩, unmodified_keysyms := [4, 5], new_mods := none }
        7 .pressed).2 = 2 ∧
    countInvoke (key_event
        { pressed_keys := [], shortcuts := c1_table, config_present := true }
        { old_mods := ⟨0, 0, 0, 0, 0⟩, unmodified_keysyms := [4, 5], new_mods := none }
        7 .pressed).2 ≠ 1 := by
  constructor
  · rfl
  · decide

/-- C1 (amended): for a key press that changes pressed-key membership, with a
configuration proxy attached, the trace holds one `invoke_shortcut` per
unmodified keysym matched in the shortcut table under the pre-update modifier
state, and a `key` delivery to the focus node exactly when no keysym matched. -/
theorem key_event_press_dispatch (s : KeySeatState) (xkb : XkbAnswers) (key : Nat)
    (hk : key ∉ s.pressed_keys) (hc : s.config_present = true) :
    countInvoke (key_event s xkb key .pressed).2 =
      (xkb.unmodified_keysyms.filter
        (fun sym => (s.shortcuts (xkb.old_mods.mods_effective, sym)).isSome)).length ∧
    countKey (key_event s xkb key .pressed).2 =
      (if (xkb.unmodified_keysyms.filter
            (fun sym => (s.shortcuts (xkb.old_mods.mods_effective, sym)).isSome)).isEmpty
       then 1 else 0) := by
  have hlen := length_filterMap_eq_length_filter
    (fun sym => match s.shortcuts (xkb.old_mods.mods_effective, sym) with
                | some mods => some (mods, sym)
                | none => none)
    (fun sym => (s.shortcuts (xkb.old_mods.mods_effective, sym)).isSome)
    (fun a => by cases h : s.shortcuts (xkb.old_mods.mods_effective, a) <;> simp [h])
    xkb.unmodified_keysyms
  set M := xkb.unmodified_keysyms.filterMap
    (fun sym => match s.shortcuts (xkb.old_mods.mods_effective, sym) with
                | some mods => some (mods, sym)
                | none => none) with hM
  set F := xkb.unmodified_keysyms.filter
    (fun sym => (s.shortcuts (xkb.old_mods.mods_effective, sym)).isSome) with hF
  have hempty : M.isEmpty = F.isEmpty := isEmpty_eq_of_length_eq hlen
  have hred : (key_event s xkb key .pressed).2 =
      (if M.isEmpty then [KeyEv.node_key key wl_keyboard_PRESSED]
       else if s.config_present then M.map (fun ms => KeyEv.invoke_shortcut ms.1 ms.2)
       else []) ++
      (match xkb.new_mods with | some m => [KeyEv.node_mods m] | none => []) := by
    simp only [key_event, if_neg hk, hM]
    simp
  rw [hred]
  have hm1 : countInvoke (match xkb.new_mods with
      | some m => [KeyEv.node_mods m] | none => ([] : List KeyEv)) = 0 := by
    cases xkb.new_mods <;> rfl
  have hm2 : countKey (match xkb.new_mods with
      | some m => [KeyEv.node_mods m] | none => ([] : List KeyEv)) = 0 := by
    cases xkb.new_mods <;> rfl
  by_cases he : F.isEmpty = true
  · have hMe : M.isEmpty = true := hempty.trans he
    have hFlen : F.length = 0 := by
      rw [hF] at he ⊢
      cases hc2 : xkb.unmodified_keysyms.filter
        (fun sym => (s.shortcuts (xkb.old_mods.mods_effective, sym)).isSome) <;>
        simp_all
    rw [if_pos hMe, he, if_pos rfl, countInvoke_append, countKey_append, hm1, hm2, hFlen]
    exact ⟨rfl, rfl⟩
  · have hFe : F.isEmpty = false := by revert he; cases F.isEmpty <;> simp
    have hMe : M.isEmpty = false := hempty.trans hFe
    rw [if_neg (by simp [hMe]), if_pos hc, hFe,
      countInvoke_append, countKey_append, hm1, hm2,
      countInvoke_map_invoke, countKey_map_invoke, hlen]
    exact ⟨rfl, by simp⟩

/-- Witness for C1 (amended): one bound keysym, one invocation, no key event. -/
theorem key_event_press_dispatch_witness :
    countInvoke (key_event
        { pressed_keys := [2], shortcuts := c1_table, config_present := true }
        { old_mods := ⟨0, 0, 0, 0, 0⟩, unmodified_keysyms := [4], new_mods := none }
        7 .pressed).2 = 1 ∧
    countKey (key_event
        { pressed_keys := [2], shortcuts := c1_table, config_present := true }
        { old_mods := ⟨0, 0, 0, 0, 0⟩, unmodified_keysyms := [4], new_mods := none }
        7 .pressed).2 = 0 := by
  have h := key_event_press_dispatch
    { pressed_keys := [2], shortcuts := c1_table, config_present := true }
    { old_mods := ⟨0, 0, 0, 0, 0⟩, unmodified_keysyms := [4], new_mods := none }
    7 (by decide) rfl
  exact ⟨h.1.trans (by rfl), h.2.trans (by rfl)⟩

/-- Helper: `pop_stack` pops down to the destroyed node: the nodes that
received `leave` are the maximal top segment not containing the node, and the
remaining stack is everything strictly below it. -/
theorem pop_stack_eq (nid : Nat) (l : List Nat) :
    pop_stack nid l =
      ((l.dropWhile (fun n => n != nid)).drop 1, l.takeWhile (fun n => n != nid)) := by
  induction l with
  | nil => rfl
  | cons n rest ih =>
    by_cases h : n = nid
    · simp [pop_stack, h]
    · simp [pop_stack, h, ih]

/-- Helper: the destroyed node itself never receives a `leave`. -/
theorem pop_stack_no_node (nid : Nat) (l : List Nat) :
    ∀ n ∈ (pop_stack nid l).2, n ≠ nid := by
  induction l with
  | nil => simp [pop_stack]
  | cons m rest ih =>
    intro n hn
    by_cases h : m = nid
    · simp [pop_stack, h] at hn
    · simp only [pop_stack, if_neg h, List.mem_cons] at hn
      rcases hn with rfl | hn
      · exact h
      · exact ih n hn

/-- Concrete seat environment for the C2 witness. -/
def c2_env : SeatEnv :=
  { pointer_stack := fun s => if s = 1 then [7, 3, 9] else []
    focus_history_last := fun s => if s = 2 then some 5 else none }

/-- Concrete node seat state for the C2 witness. -/
def c2_state : NodeSeatStateM :=
  { pointer_foci := [1], kb_foci := [2], grabs := [0], dnd_targets := [4] }

/-- C2: `destroy_node` emits, in strict phase order, a revert-to-default for
every grab, a dnd-target-removed for every dnd target, then per pointer-focus
seat a `leave` for each node popped from the pointer stack above the destroyed
node followed by a tree-changed, then the keyboard release which re-focuses
the last toplevel of the focus history; the destroyed node receives no
`leave`, and each popped stack retains exactly the nodes strictly below the
destroyed node. -/
theorem destroy_node_phases (env : SeatEnv) (st : NodeSeatStateM) (nid : Nat) :
    ((destroy_node env st nid).1 =
      st.grabs.map DestroyEv.revert_to_default ++
      st.dnd_targets.map DestroyEv.dnd_target_removed ++
      (st.pointer_foci.bind fun seat =>
        ((env.pointer_stack seat).takeWhile (fun n => n != nid)).map
          (DestroyEv.leave seat) ++
        [DestroyEv.tree_changed seat]) ++
      (st.kb_foci.bind fun seat =>
        [DestroyEv.ungrab_kb seat, DestroyEv.kb_node_root seat] ++
        (match env.focus_history_last seat with
         | some tl => [DestroyEv.focus_node seat tl]
         | none => []))) ∧
    (∀ seat, (destroy_node env st nid).2 seat =
      if seat ∈ st.pointer_foci
      then ((env.pointer_stack seat).dropWhile (fun n => n != nid)).drop 1
      else env.pointer_stack seat) ∧
    (∀ seat n, DestroyEv.leave seat n ∈ (destroy_node env st nid).1 → n ≠ nid) := by
  refine ⟨?_, ?_, ?_⟩
  · simp only [destroy_node, destroy_node2, release_kb_focus2, pop_stack_eq, if_true]
  · intro seat
    simp only [destroy_node, destroy_node2, pop_stack_eq]
  · intro seat n hmem
    simp only [destroy_node, destroy_node2, release_kb_focus2, List.mem_append,
      List.mem_bind, List.mem_map, List.mem_cons, List.mem_singleton] at hmem
    rcases hmem with ((⟨a, ha, he⟩ | ⟨a, ha, he⟩) | ⟨a, ha, ⟨m, hm, he⟩ | he | he⟩) |
      ⟨a, ha, (he | he | he) | he⟩
    · simp at he
    · simp at he
    · injection he with h1 h2
      subst h2
      exact pop_stack_no_node nid (env.pointer_stack a) m hm
    · simp at he
    · simp at he
    · simp at he
    · simp at he
    · simp at he
    · revert he
      cases env.focus_history_last a <;> simp

/-- Witness for C2: a concrete configuration with one grab, one dnd target,
one pointer-focus seat whose stack is [7, 3, 9] with node 3 destroyed, and one
keyboard-focus seat with focus-history top 5. -/
theorem destroy_node_phases_witness :
    (destroy_node c2_env c2_state 3).1 =
      [DestroyEv.revert_to_default 0, DestroyEv.dnd_target_removed 4,
       DestroyEv.leave 1 7, DestroyEv.tree_changed 1,
       DestroyEv.ungrab_kb 2, DestroyEv.kb_node_root 2, DestroyEv.focus_node 2 5] ∧
    (destroy_node c2_env c2_state 3).2 1 = [9] ∧
    DestroyEv.leave 1 3 ∉ (destroy_node c2_env c2_state 3).1 := by
  have h := destroy_node_phases c2_env c2_state 3
  exact ⟨h.1.trans (by rfl), (h.2.1 1).trans (by rfl), fun hm => h.2.2 1 3 hm rfl⟩

/-- C7: when a seat's keyboard-focus node is destroyed and the toplevel focus
history is non-empty, the released seat emits `leave` on the old surface with
a fresh serial of its client, then `enter` on the history-top surface carrying
the currently pressed keys and a fresh serial of its client, then `modifiers`
carrying the full modifier tuple with another fresh serial. -/
theorem release_refocus_sequence (st : KbFocusState) (old : Surface)
    (hist : Option Surface) (tl : Surface) (hh : hist = some tl) :
    (release_one_kb_focus st old hist).2 =
      [KbEv.leave (st.serials old.client + 1) old.id,
       KbEv.enter ((unfocus_surface st old).1.serials tl.client + 1) tl.id
         st.pressed_keys,
       KbEv.modifiers ((unfocus_surface st old).1.serials tl.client + 2)
         st.mods.mods_depressed st.mods.mods_latched st.mods.mods_locked
         st.mods.group] := by
  subst hh
  simp [release_one_kb_focus, set_kb_node, unfocus_surface, focus_surface, next_serial]

/-- Witness for C7: serial counters all at 10, old surface of client 0, new
surface of client 1; the trace is leave(11), enter(11, pressed keys),
modifiers(12, tuple). -/
theorem release_refocus_sequence_witness :
    (release_one_kb_focus
        { serials := fun _ => 10, pressed_keys := [30, 31],
          mods := ⟨1, 2, 3, 4, 5⟩ }
        { id := 100, client := 0 } (some { id := 200, client := 1 })).2 =
      [KbEv.leave 11 100, KbEv.enter 11 200 [30, 31], KbEv.modifiers 12 1 2 3 5] := by
  have h := release_refocus_sequence
    { serials := fun _ => 10, pressed_keys := [30, 31], mods := ⟨1, 2, 3, 4, 5⟩ }
    { id := 100, client := 0 } (some { id := 200, client := 1 })
    { id := 200, client := 1 } rfl
  exact h.trans (by rfl)

/-- Helper: an event delivered by `surface_pointer_event` goes to a bound
pointer of sufficient version. -/
theorem mem_surface_pointer_event {pointers : List Nat} {ver : Nat}
    {f : Nat → ScrollEv} {e : ScrollEv}
    (h : e ∈ surface_pointer_event pointers ver f) :
    ∃ v, v ∈ pointers ∧ ver ≤ v ∧ e = f v := by
  simp only [surface_pointer_event, for_each_pointer, List.mem_map, List.mem_filter,
    decide_eq_true_eq] at h
  obtain ⟨v, ⟨hv, hle⟩, he⟩ := h
  exact ⟨v, hv, hle, he.symm⟩

/-- Helper: case split on the origin of an event in the scroll trace. -/
theorem mem_scroll_surface {V : SinceVersions} {pointers : List Nat}
    {event : PendingScroll} {e : ScrollEv}
    (h : e ∈ scroll_surface V pointers event) :
    (∃ src, event.source = some src ∧
        e ∈ surface_pointer_event pointers
          (if V.wheel_tilt ≤ src then V.wheel_tilt_since else V.axis_source_since)
          (fun v => ScrollEv.axis_source v src)) ∨
    (∃ d, event.discrete 0 = some d ∧
        e ∈ surface_pointer_event pointers V.axis_discrete_since
          (fun v => ScrollEv.axis_discrete v 0 d)) ∨
    (∃ d, event.axis 0 = some d ∧
        e ∈ surface_pointer_event pointers 0 (fun v => ScrollEv.axis_ev v 0 d)) ∨
    (event.stop 0 = true ∧
        e ∈ surface_pointer_event pointers V.axis_stop_since
          (fun v => ScrollEv.axis_stop v 0)) ∨
    e ∈ surface_pointer_event pointers V.frame_since ScrollEv.frame := by
  unfold scroll_surface at h
  simp only [List.cons_bind, List.nil_bind, List.append_nil] at h
  rcases List.mem_append.mp h with h1 | h3
  · rcases List.mem_append.mp h1 with hX | hY
    · left
      cases hs : event.source with
      | none => rw [hs] at hX; simp at hX
      | some src =>
        rw [hs] at hX
        exact ⟨src, rfl, hX⟩
    · rcases List.mem_append.mp hY with hDA | hS
      · rcases List.mem_append.mp hDA with hD | hA
        · right; left
          cases hd : event.discrete 0 with
          | none => rw [hd] at hD; simp at hD
          | some d =>
            rw [hd] at hD
            exact ⟨d, rfl, hD⟩
        · right; right; left
          cases ha : event.axis 0 with
          | none => rw [ha] at hA; simp at hA
          | some d =>
            rw [ha] at hA
            exact ⟨d, rfl, hA⟩
      · right; right; right; left
        cases hst : event.stop 0 with
        | false => rw [hst] at hS; simp at hS
        | true =>
          rw [hst] at hS
          simp only [if_true] at hS
          exact ⟨rfl, hS⟩
  · right; right; right; right
    exact h3

/-- C4: evaluating the scroll delivery at a snapshot whose axis-1 fields are
all pending shows that no `axis_discrete`, `axis` or `axis_stop` event is
emitted for axis index 1 — the source's `for i in 0..1` loop iterates only
axis 0, so only the trailing `frame` is sent. -/
theorem scroll_surface_drops_axis1 :
    (let V : SinceVersions := ⟨5, 6, 5, 5, 5, 6⟩
     let ev : PendingScroll :=
       { source := none, discrete := fun i => if i = 1 then some 2 else none,
         axis := fun i => if i = 1 then some 15 else none,
         stop := fun i => decide (i = 1) }
     scroll_surface V [7] ev = [ScrollEv.frame 7] ∧
       ScrollEv.axis_ev 7 1 15 ∉ scroll_surface V [7] ev) := by
  intro V ev
  refine ⟨rfl, fun h => ?_⟩
  rw [show scroll_surface V [7] ev = [ScrollEv.frame 7] from rfl] at h
  simp at h

/-- C5: every `axis_source`, `axis_discrete`, `axis_stop` and `frame` event
goes only to pointers whose seat binding version reaches the respective
since-version, while a pending `axis` value is delivered to every bound
pointer regardless of version. -/
theorem scroll_surface_version_gating (V : SinceVersions) (pointers : List Nat)
    (event : PendingScroll) (hwts : V.axis_source_since ≤ V.wheel_tilt_since) :
    (∀ v src, ScrollEv.axis_source v src ∈ scroll_surface V pointers event →
        v ∈ pointers ∧ V.axis_source_since ≤ v) ∧
    (∀ v a d, ScrollEv.axis_discrete v a d ∈ scroll_surface V pointers event →
        v ∈ pointers ∧ V.axis_discrete_since ≤ v) ∧
    (∀ v a, ScrollEv.axis_stop v a ∈ scroll_surface V pointers event →
        v ∈ pointers ∧ V.axis_stop_since ≤ v) ∧
    (∀ v, ScrollEv.frame v ∈ scroll_surface V pointers event →
        v ∈ pointers ∧ V.frame_since ≤ v) ∧
    (∀ v d, v ∈ pointers → event.axis 0 = some d →
        ScrollEv.axis_ev v 0 d ∈ scroll_surface V pointers event) := by
  refine ⟨?_, ?_, ?_, ?_, ?_⟩
  · intro v src hmem
    rcases mem_scroll_surface hmem with ⟨s2, hs, hm⟩ | ⟨d, hd, hm⟩ | ⟨d, hd, hm⟩ |
      ⟨hst, hm⟩ | hm <;> obtain ⟨v2, hv2, hle, he⟩ := mem_surface_pointer_event hm
    · injection he with h1 h2
      subst h1
      refine ⟨hv2, ?_⟩
      by_cases hw : V.wheel_tilt ≤ s2
      · rw [if_pos hw] at hle
        omega
      · rw [if_neg hw] at hle
        exact hle
    · simp at he
    · simp at he
    · simp at he
    · simp at he
  · intro v a d hmem
    rcases mem_scroll_surface hmem with ⟨s2, hs, hm⟩ | ⟨d2, hd, hm⟩ | ⟨d2, hd, hm⟩ |
      ⟨hst, hm⟩ | hm <;> obtain ⟨v2, hv2, hle, he⟩ := mem_surface_pointer_event hm
    · simp at he
    · injection he with h1 h2
      subst h1
      exact ⟨hv2, hle⟩
    · simp at he
    · simp at he
    · simp at he
  · intro v a hmem
    rcases mem_scroll_surface hmem with ⟨s2, hs, hm⟩ | ⟨d2, hd, hm⟩ | ⟨d2, hd, hm⟩ |
      ⟨hst, hm⟩ | hm <;> obtain ⟨v2, hv2, hle, he⟩ := mem_surface_pointer_event hm
    · simp at he
    · simp at he
    · simp at he
    · injection he with h1 h2
      subst h1
      exact ⟨hv2, hle⟩
    · simp at he
  · intro v hmem
    rcases mem_scroll_surface hmem with ⟨s2, hs, hm⟩ | ⟨d2, hd, hm⟩ | ⟨d2, hd, hm⟩ |
      ⟨hst, hm⟩ | hm <;> obtain ⟨v2, hv2, hle, he⟩ := mem_surface_pointer_event hm
    · simp at he
    · simp at he
    · simp at he
    · simp at he
    · injection he with h1
      subst h1
      exact ⟨hv2, hle⟩
  · intro v d hv hd
    unfold scroll_surface
    refine List.mem_append.mpr (Or.inl (List.mem_append.mpr (Or.inr ?_)))
    simp only [List.cons_bind, List.nil_bind, List.append_nil]
    refine List.mem_append.mpr (Or.inl (List.mem_append.mpr (Or.inr ?_)))
    rw [hd]
    simp only [surface_pointer_event, for_each_pointer, List.mem_map, List.mem_filter,
      decide_eq_true_eq]
    exact ⟨v, ⟨hv, Nat.zero_le v⟩, rfl⟩

/-- A pending-scroll snapshot for the C5 witness: wheel source, axis-0 value 3. -/
def c5_event : PendingScroll :=
  { source := some 0, discrete := fun _ => none,
    axis := fun i => if i = 0 then some 3 else none, stop := fun _ => false }

/-- Witness for C5: with protocol since-versions (5,6,5,5,5) and pointers of
versions 1 and 7, the version-1 pointer receives the axis event but no frame. -/
theorem scroll_surface_version_gating_witness :
    ScrollEv.axis_ev 1 0 3 ∈ scroll_surface ⟨5, 6, 5, 5, 5, 6⟩ [1, 7] c5_event ∧
    ScrollEv.frame 1 ∉ scroll_surface ⟨5, 6, 5, 5, 5, 6⟩ [1, 7] c5_event := by
  have h := scroll_surface_version_gating ⟨5, 6, 5, 5, 5, 6⟩ [1, 7] c5_event (by decide)
  refine ⟨h.2.2.2.2 1 3 (by simp) rfl, fun hm => ?_⟩
  exact absurd ((h.2.2.2.1 1 hm).2) (by decide)

/-- C6: when the session is locked and the usecase is not SelectToplevel, the
find-tree traversal returns only the lock surface and its subtree (or nothing
when no lock surface is set), independently of the stacked, layer, fullscreen
and workspace searches. -/
theorem node_find_tree_at_locked (env : OutputEnv) (o : OutputState) (x y : Int)
    (usecase : FindTreeUsecase) (hl : o.locked = true)
    (hu : usecase ≠ FindTreeUsecase.select_toplevel) :
    (node_find_tree_at env o x y usecase =
      match o.lock_surface with
      | some ls => ({ node := ls, x := x, y := y } :: (env.lock_subtree x y).1,
                    (env.lock_subtree x y).2)
      | none => ([], FindTreeResult.accepts_input)) ∧
    (∀ env2 : OutputEnv, env2.lock_subtree = env.lock_subtree →
      node_find_tree_at env2 o x y usecase = node_find_tree_at env o x y usecase) := by
  have hchar : ∀ env2 : OutputEnv, env2.lock_subtree = env.lock_subtree →
      node_find_tree_at env2 o x y usecase =
        match o.lock_surface with
        | some ls => ({ node := ls, x := x, y := y } :: (env.lock_subtree x y).1,
                      (env.lock_subtree x y).2)
        | none => ([], FindTreeResult.accepts_input) := by
    intro env2 he
    unfold node_find_tree_at
    rw [hl, he]
    simp only [if_true, if_pos hu]
  exact ⟨hchar env rfl, fun env2 he => (hchar env2 he).trans (hchar env rfl).symm⟩

/-- A concrete oracle environment for the C6 witness: every collaborator
search would find node 99, the lock subtree finds node 50. -/
def c6_env : OutputEnv :=
  { lock_subtree := fun x y => ([{ node := 50, x := x, y := y }],
      FindTreeResult.accepts_input)
    stacked_above_layers := fun x y => ([{ node := 99, x := x, y := y }],
      FindTreeResult.accepts_input)
    layers_overlay_top := fun x y => ([{ node := 99, x := x, y := y }],
      FindTreeResult.accepts_input)
    stacked := fun x y => ([{ node := 99, x := x, y := y }],
      FindTreeResult.accepts_input)
    fullscreen_subtree := fun x y => ([{ node := 99, x := x, y := y }],
      FindTreeResult.accepts_input)
    ws_subtree := fun x y => ([{ node := 99, x := x, y := y }],
      FindTreeResult.accepts_input)
    layers_bottom_bg := fun x y => ([{ node := 99, x := x, y := y }],
      FindTreeResult.accepts_input) }

/-- A locked output with lock surface 42 for the C6 witness. -/
def c6_output : OutputState :=
  { locked := true, lock_surface := some 42, bar_height := 18,
    workspace := some 7, fullscreen := some 8,
    non_exclusive_rect := { x1 := 0, y1 := 0, x2 := 1920, y2 := 1080 } }

/-- Witness for C6: a click at (10, 20) on the locked output finds only the
lock surface 42 and its subtree node 50 — none of the collaborator nodes 99. -/
theorem node_find_tree_at_locked_witness :
    node_find_tree_at c6_env c6_output 10 20 FindTreeUsecase.usual =
      ([{ node := 42, x := 10, y := 20 }, { node := 50, x := 10, y := 20 }],
       FindTreeResult.accepts_input) := by
  have h := node_find_tree_at_locked c6_env c6_output 10 20 FindTreeUsecase.usual rfl
    (by decide)
  exact h.1.trans (by rfl)

/-- Helper: each capture's reply is `failed` exactly under the failure
conditions, and otherwise optional `damage` followed by `ready`. -/
theorem handle_capture_eq (now : Int × Int) (c : Capture) :
    handle_capture now c =
      if capture_fails c then [CaptureEv.failed]
      else (if c.with_damage then [CaptureEv.damage] else []) ++
        [CaptureEv.ready now.1 now.2] := by
  rcases c with ⟨buffer, wd, ok⟩
  cases buffer with
  | none => rfl
  | some b =>
    rcases b with ⟨des, st⟩
    cases des <;> cases ok <;> rcases st with _ | (_ | fb) <;>
      first
        | rfl
        | (cases fb <;> rfl)

/-- C8: screencopy drain is local and total: the reply list is index-aligned
with the capture queue, and each capture is answered `failed` exactly when it
has no buffer, a destroyed buffer, a dmabuf buffer without framebuffer, or a
failed copy, and `ready(sec, nsec)` (after optional `damage`) otherwise. -/
theorem perform_wlr_screencopies_spec (now : Int × Int) (cs : List Capture) :
    (perform_wlr_screencopies now cs).length = cs.length ∧
    ∀ i, (perform_wlr_screencopies now cs).get? i = (cs.get? i).map (fun c =>
      if capture_fails c then [CaptureEv.failed]
      else (if c.with_damage then [CaptureEv.damage] else []) ++
        [CaptureEv.ready now.1 now.2]) := by
  induction cs with
  | nil => exact ⟨rfl, fun i => by cases i <;> rfl⟩
  | cons c rest ih =>
    refine ⟨by simp [perform_wlr_screencopies, ih.1], fun i => ?_⟩
    cases i with
    | zero => simp [perform_wlr_screencopies, handle_capture_eq]
    | succ n => simpa [perform_wlr_screencopies] using ih.2 n

/-- C10: handling `unlock` always sets the requesting client's
`symmetric_delete` flag, whether or not the session was locked; when the
session was not locked, `unlock` acts exactly like `enable_symmetric_delete`. -/
theorem unlock_sets_symmetric_delete (s : JayState) :
    (unlock s).symmetric_delete = true ∧
    (s.lock.locked = false → unlock s = enable_symmetric_delete s) := by
  constructor
  · unfold unlock
    split <;> rfl
  · intro h
    obtain ⟨⟨lkd, lkp⟩, ls, sd, tc, dm⟩ := s
    simp only at h
    subst h
    rfl

/-- Witness for C10: an unlocked state with the flag clear; `unlock` sets the
flag and coincides with `enable_symmetric_delete`. -/
theorem unlock_sets_symmetric_delete_witness :
    (let s : JayState := { lock := { locked := false, lock_present := false },
                           lock_surfaces := [true], symmetric_delete := false,
                           tree_changed_flag := false, damaged := false }
     (unlock s).symmetric_delete = true ∧ unlock s = enable_symmetric_delete s) := by
  intro s
  exact ⟨(unlock_sets_symmetric_delete s).1, (unlock_sets_symmetric_delete s).2 rfl⟩

end Jay
